import Mathlib

/-!
Verification of the query front-end of the memgraph repository:
the query cache / plan cache data model and operations declared in
`src/query/cypher_query_interpreter.hpp` and the symbol generator declared in
`src/query/frontend/semantic/symbol_generator.hpp`.

Inline code in the headers (`CachedPlan::IsExpired`, the cache-entry comparison
operators, `SingleNodeLogicalPlan`, the `CachedPlan` accessors) is embedded
directly from the source.  The bodies of `ParseQuery`, `CypherQueryToPlan` and
the `SymbolGenerator` visit methods live in a translation unit that is not part
of the header surface, so those operations are modelled from the specification
(each such definition carries a doc comment starting `Modelled from the spec:`).

Time is modelled with rational numbers of seconds; a 64-bit hash value is
modelled as a natural number (the entry operators only compare hashes, they
never compute with them).
-/

namespace Memgraph

/-! ### Cache entries (`QueryCacheEntry`, `PlanCacheEntry`)

From `cypher_query_interpreter.hpp` lines 73-95.  Both structs hold a 64-bit
hash `first` and a payload `second`; all four comparison operators look only at
`first`.  The payload type is a type parameter here so the embedding covers the
`CachedQuery` payload and the shared `CachedPlan` payload alike. -/

structure QueryCacheEntry (Q : Type) where
  first : ℕ
  second : Q

/-- `bool operator==(const QueryCacheEntry &other) const { return first == other.first; }` -/
def QueryCacheEntry.eqv {Q : Type} (a b : QueryCacheEntry Q) : Bool :=
  a.first == b.first

/-- `bool operator<(const QueryCacheEntry &other) const { return first < other.first; }` -/
def QueryCacheEntry.ltv {Q : Type} (a b : QueryCacheEntry Q) : Bool :=
  decide (a.first < b.first)

/-- `bool operator==(const uint64_t &other) const { return first == other; }` -/
def QueryCacheEntry.eqvHash {Q : Type} (a : QueryCacheEntry Q) (other : ℕ) : Bool :=
  a.first == other

/-- `bool operator<(const uint64_t &other) const { return first < other; }` -/
def QueryCacheEntry.ltvHash {Q : Type} (a : QueryCacheEntry Q) (other : ℕ) : Bool :=
  decide (a.first < other)

structure PlanCacheEntry (P : Type) where
  first : ℕ
  second : P

/-- `bool operator==(const PlanCacheEntry &other) const { return first == other.first; }` -/
def PlanCacheEntry.eqv {P : Type} (a b : PlanCacheEntry P) : Bool :=
  a.first == b.first

/-- `bool operator<(const PlanCacheEntry &other) const { return first < other.first; }` -/
def PlanCacheEntry.ltv {P : Type} (a b : PlanCacheEntry P) : Bool :=
  decide (a.first < b.first)

/-- `bool operator==(const uint64_t &other) const { return first == other; }` -/
def PlanCacheEntry.eqvHash {P : Type} (a : PlanCacheEntry P) (other : ℕ) : Bool :=
  a.first == other

/-- `bool operator<(const uint64_t &other) const { return first < other; }` -/
def PlanCacheEntry.ltvHash {P : Type} (a : PlanCacheEntry P) (other : ℕ) : Bool :=
  decide (a.first < other)

/-! ### `LogicalPlan`, `SingleNodeLogicalPlan`, `CachedPlan`

From `cypher_query_interpreter.hpp` lines 31-65 and 114-130.  `LogicalPlan` is
a virtual interface with four accessors; it is embedded as a record of the four
values an implementation returns.  The operator-root, symbol-table and
AST-storage types are opaque to this header, so they are type parameters; the
C++ `double` cost is modelled as a rational. -/

structure LogicalPlan (Op SymTab Storage : Type) where
  GetRoot : Op
  GetCost : ℚ
  GetSymbolTable : SymTab
  GetAstStorage : Storage

/-- `SingleNodeLogicalPlan` stores the constructor arguments
`(root, cost, storage, symbol_table)` in its fields. -/
structure SingleNodeLogicalPlan (Op SymTab Storage : Type) where
  root_ : Op
  cost_ : ℚ
  storage_ : Storage
  symbol_table_ : SymTab

/-- `const plan::LogicalOperator &GetRoot() const override { return *root_; }` -/
def SingleNodeLogicalPlan.GetRoot {Op SymTab Storage : Type}
    (p : SingleNodeLogicalPlan Op SymTab Storage) : Op := p.root_

/-- `double GetCost() const override { return cost_; }` -/
def SingleNodeLogicalPlan.GetCost {Op SymTab Storage : Type}
    (p : SingleNodeLogicalPlan Op SymTab Storage) : ℚ := p.cost_

/-- `const SymbolTable &GetSymbolTable() const override { return symbol_table_; }` -/
def SingleNodeLogicalPlan.GetSymbolTable {Op SymTab Storage : Type}
    (p : SingleNodeLogicalPlan Op SymTab Storage) : SymTab := p.symbol_table_

/-- `const AstStorage &GetAstStorage() const override { return storage_; }` -/
def SingleNodeLogicalPlan.GetAstStorage {Op SymTab Storage : Type}
    (p : SingleNodeLogicalPlan Op SymTab Storage) : Storage := p.storage_

/-- The `LogicalPlan` view of a `SingleNodeLogicalPlan` (virtual dispatch). -/
def SingleNodeLogicalPlan.toLogicalPlan {Op SymTab Storage : Type}
    (p : SingleNodeLogicalPlan Op SymTab Storage) : LogicalPlan Op SymTab Storage :=
  ⟨p.GetRoot, p.GetCost, p.GetSymbolTable, p.GetAstStorage⟩

/-- `CachedPlan` owns one `LogicalPlan` and a `utils::Timer cache_timer_`
started at construction; the timer is embedded as the construction instant
`constructedAt` (in seconds), so that `cache_timer_.Elapsed()` read at instant
`now` is `now - constructedAt`. -/
structure CachedPlan (Op SymTab Storage : Type) where
  plan_ : LogicalPlan Op SymTab Storage
  constructedAt : ℚ

/-- `const auto &plan() const { return plan_->GetRoot(); }` -/
def CachedPlan.plan {Op SymTab Storage : Type}
    (cp : CachedPlan Op SymTab Storage) : Op := cp.plan_.GetRoot

/-- `double cost() const { return plan_->GetCost(); }` -/
def CachedPlan.cost {Op SymTab Storage : Type}
    (cp : CachedPlan Op SymTab Storage) : ℚ := cp.plan_.GetCost

/-- `const auto &symbol_table() const { return plan_->GetSymbolTable(); }` -/
def CachedPlan.symbol_table {Op SymTab Storage : Type}
    (cp : CachedPlan Op SymTab Storage) : SymTab := cp.plan_.GetSymbolTable

/-- `const auto &ast_storage() const { return plan_->GetAstStorage(); }` -/
def CachedPlan.ast_storage {Op SymTab Storage : Type}
    (cp : CachedPlan Op SymTab Storage) : Storage := cp.plan_.GetAstStorage

/-- `cypher_query_interpreter.hpp` lines 57-60:
`return cache_timer_.Elapsed() > std::chrono::seconds(FLAGS_query_plan_cache_ttl);`
read at instant `now` with the configured TTL `ttl` (whole seconds, an `int32`
flag). -/
def CachedPlan.IsExpiredAt {Op SymTab Storage : Type}
    (cp : CachedPlan Op SymTab Storage) (now : ℚ) (ttl : ℤ) : Bool :=
  decide ((ttl : ℚ) < now - cp.constructedAt)

/-! ### Plan cache and `CypherQueryToPlan`

The plan cache (`utils::SkipList<PlanCacheEntry>`) is embedded as an
association list of `PlanCacheEntry` keyed by the hash `first`; lookup uses the
entry's `operator==(uint64_t)`.  The body of `CypherQueryToPlan` is not in the
header surface, so it is modelled from the specification (§4.3). -/

/-- Look up the entry with the given hash (the skip list's `find`). -/
def planCacheFind {P : Type} (cache : List (PlanCacheEntry P)) (hash : ℕ) :
    Option (PlanCacheEntry P) :=
  cache.find? (fun e => e.eqvHash hash)

/-- Insert or replace the entry for `hash` (the skip list's
`insert`/replacement of an existing key). -/
def planCacheInsertOrReplace {P : Type} (cache : List (PlanCacheEntry P))
    (hash : ℕ) (p : P) : List (PlanCacheEntry P) :=
  ⟨hash, p⟩ :: cache.filter (fun e => !e.eqvHash hash)

/-- Result of one `CypherQueryToPlan` call: the returned shared `CachedPlan`,
the plan cache after the call, and whether the external planner was invoked. -/
structure CypherToPlanResult (Op SymTab Storage : Type) where
  plan : CachedPlan Op SymTab Storage
  cache : List (PlanCacheEntry (CachedPlan Op SymTab Storage))
  plannerInvoked : Bool

/-- Modelled from the spec: the body of `CypherQueryToPlan` (declared at
`cypher_query_interpreter.hpp` lines 136-139, defined in a translation unit
outside the header surface), following §4.3 of the specification.
`planner` stands for the external planner invocation (cost-based or rule-based
against the AST, symbol table, predefined identifiers and storage accessor);
`now` is the instant of the call and `ttl` the configured plan-cache TTL.
If cacheable, the hash is looked up; a non-expired hit is returned as is;
otherwise the planner runs, the fresh plan is wrapped in a new `CachedPlan`
whose timer starts now, and (when cacheable) the entry for the hash is
inserted or replaced before returning. -/
def CypherQueryToPlan {Op SymTab Storage : Type} (hash : ℕ)
    (planner : Unit → LogicalPlan Op SymTab Storage)
    (plan_cache : List (PlanCacheEntry (CachedPlan Op SymTab Storage)))
    (is_cacheable : Bool) (now : ℚ) (ttl : ℤ) : CypherToPlanResult Op SymTab Storage :=
  let build : CypherToPlanResult Op SymTab Storage :=
    let fresh : CachedPlan Op SymTab Storage := ⟨planner (), now⟩
    { plan := fresh
      cache := if is_cacheable then planCacheInsertOrReplace plan_cache hash fresh
               else plan_cache
      plannerInvoked := true }
  if is_cacheable then
    match planCacheFind plan_cache hash with
    | some e => if e.second.IsExpiredAt now ttl then build else ⟨e.second, plan_cache, false⟩
    | none => build
  else build

/-! ### Query cache and `ParseQuery`

The query cache (`utils::SkipList<QueryCacheEntry>`) is likewise an
association list keyed by the hash.  The body of `ParseQuery` is not in the
header surface, so it is modelled from the specification (§4.1).  AST arenas
carry an identity tag so that sharing a cached arena is distinguishable from
re-parsing into a fresh arena. -/

/-- An `AstStorage` arena: `arenaId` is the identity of the arena (two calls
share the arena exactly when the ids coincide), `rootNode` stands for the
owned root node. -/
structure AstStorage where
  arenaId : ℕ
  rootNode : ℕ
deriving DecidableEq, Repr

/-- `struct CachedQuery` (`cypher_query_interpreter.hpp` lines 67-71):
AST storage, root `Query` node and required privileges. -/
structure CachedQuery where
  ast_storage : AstStorage
  query : ℕ
  required_privileges : List ℕ
deriving DecidableEq, Repr

/-- Errors raised while producing a `ParsedQuery`: a `SyntaxError` from the
external parser (with position information) or a `SemanticError` from the
symbol generator. -/
inductive FrontendError where
  | syntaxError (position : ℕ)
  | semanticError (msg : String)
deriving DecidableEq, Repr

/-- The external collaborators of `ParseQuery` (§4.1, §6): the stripped-query
hash, the external parser (`text -> AST | SyntaxError`), the symbol generator
run (`AST -> ok | SemanticError`), privilege extraction (a pure function of
the AST) and the cacheability judgement of the parsed query. -/
structure Frontend where
  stripHash : String → ℕ
  parse : String → Except FrontendError ℕ
  symbolCheck : ℕ → Except FrontendError Unit
  privilegesOf : ℕ → List ℕ
  isCacheableAst : ℕ → Bool

/-- `struct ParsedQuery` (`cypher_query_interpreter.hpp` lines 100-109). -/
structure ParsedQuery where
  query_string : String
  user_parameters : List (String × ℕ)
  stripped_hash : ℕ
  ast_storage : AstStorage
  query : ℕ
  required_privileges : List ℕ
  is_cacheable : Bool
deriving DecidableEq, Repr

/-- Look up the query-cache entry with the given hash. -/
def queryCacheFind (cache : List (QueryCacheEntry CachedQuery)) (hash : ℕ) :
    Option (QueryCacheEntry CachedQuery) :=
  cache.find? (fun e => e.eqvHash hash)

/-- Insert a fresh entry for `hash` into the query cache. -/
def queryCacheInsert (cache : List (QueryCacheEntry CachedQuery)) (hash : ℕ)
    (cq : CachedQuery) : List (QueryCacheEntry CachedQuery) :=
  ⟨hash, cq⟩ :: cache

/-- Result of one `ParseQuery` call: the produced `ParsedQuery` (or the
error), the query cache after the call, and the next fresh arena id (a cache
hit allocates no arena, a successful parse allocates one). -/
structure ParseResult where
  result : Except FrontendError ParsedQuery
  cache : List (QueryCacheEntry CachedQuery)
  nextArenaId : ℕ

/-- Modelled from the spec: the body of `ParseQuery` (declared at
`cypher_query_interpreter.hpp` lines 111-112, defined in a translation unit
outside the header surface), following §4.1 of the specification.
Compute the stripped-query hash; look it up in the query cache.  On hit,
reuse the cached AST storage, root node and privilege list (shared, not
copied) and mark the result cacheable.  On miss, run the external parser
(under the antlr lock) and the symbol generator; on either failure propagate
the error with the cache untouched; on success build a fresh arena, compute
the privileges, and insert the entry keyed by the hash — unless the query is
judged non-cacheable, in which case insertion is bypassed but a valid
`ParsedQuery` is still returned. -/
def ParseQuery (fe : Frontend) (query_string : String)
    (params : List (String × ℕ)) (cache : List (QueryCacheEntry CachedQuery))
    (nextArenaId : ℕ) : ParseResult :=
  let h := fe.stripHash query_string
  match queryCacheFind cache h with
  | some e =>
      { result := .ok
          { query_string := query_string
            user_parameters := params
            stripped_hash := h
            ast_storage := e.second.ast_storage
            query := e.second.query
            required_privileges := e.second.required_privileges
            is_cacheable := true }
        cache := cache
        nextArenaId := nextArenaId }
  | none =>
      match fe.parse query_string with
      | .error err => ⟨.error err, cache, nextArenaId⟩
      | .ok ast =>
          match fe.symbolCheck ast with
          | .error err => ⟨.error err, cache, nextArenaId⟩
          | .ok _ =>
              let storage : AstStorage := ⟨nextArenaId, ast⟩
              let privs := fe.privilegesOf ast
              let cacheable := fe.isCacheableAst ast
              let cq : CachedQuery := ⟨storage, ast, privs⟩
              { result := .ok
                  { query_string := query_string
                    user_parameters := params
                    stripped_hash := h
                    ast_storage := storage
                    query := ast
                    required_privileges := privs
                    is_cacheable := cacheable }
                cache := if cacheable then queryCacheInsert cache h cq else cache
                nextArenaId := nextArenaId + 1 }

/-! ### Symbol generator

`symbol_generator.hpp` declares the visitor interface and the `Scope` record;
the visit bodies live outside the header surface, so the scoping behaviour is
modelled from the specification (§4.2): one mutable scope mapping names to
symbols, `MATCH` patterns binding variables, `WITH` replacing the scope with
exactly its projection aliases, identifiers in expressions requiring an
existing binding, and nested aggregations rejected. -/

/-- Expressions, as far as the claims need them: a bare identifier or an
aggregation such as `sum(...)` / `count(...)` applied to an expression. -/
inductive Expr where
  | ident (name : String)
  | agg (arg : Expr)
deriving DecidableEq, Repr

/-- Query clauses, as far as the claims need them: `MATCH (v)`,
`WITH e₁ AS a₁, ...`, `RETURN e₁, ...`. -/
inductive Clause where
  | matchClause (v : String)
  | withClause (projections : List (Expr × String))
  | returnClause (items : List Expr)
deriving DecidableEq, Repr

/-- Semantic errors the modelled rules can raise. -/
inductive SemErr where
  | unboundVariable (name : String)
  | nestedAggregation
deriving DecidableEq, Repr

/-- The generator state: the active scope (`scope_.symbols`, a map from names
to symbols) and the next fresh symbol id the symbol table will hand out. -/
structure GenState where
  symbols : List (String × ℕ)
  nextSymbol : ℕ
deriving DecidableEq, Repr

/-- Look a name up in the active scope (`SymbolGenerator::HasSymbol` plus the
map read). -/
def lookupSymbol (scope : List (String × ℕ)) (name : String) : Option ℕ :=
  (scope.find? (fun p => p.1 == name)).map Prod.snd

/-- Modelled from the spec: the expression part of the `SymbolGenerator`
visitor (`Visit(Identifier&)`, `Visit(Aggregation&)` /
`PostVisit(Aggregation&)`, bodies outside the header surface).  An identifier
outside a pattern must already be bound, otherwise an unbound-variable
`SemanticError`; visiting an aggregation while `scope_.in_aggregation` is
already set fails with the nested-aggregation `SemanticError`, otherwise the
argument is visited with the flag set and the aggregation receives a fresh
symbol.  Returns the updated state and the expression's symbol. -/
def visitExpr (in_aggregation : Bool) (st : GenState) :
    Expr → Except SemErr (GenState × ℕ)
  | .ident name =>
      match lookupSymbol st.symbols name with
      | some s => .ok (st, s)
      | none => .error (.unboundVariable name)
  | .agg e =>
      if in_aggregation then .error .nestedAggregation
      else
        match visitExpr true st e with
        | .error err => .error err
        | .ok (st1, _) => .ok ({ st1 with nextSymbol := st1.nextSymbol + 1 }, st1.nextSymbol)

/-- Visit the projection list of a `WITH` clause, producing the new scope:
each `e AS a` contributes the pair `(a, symbol of e)`. -/
def visitProjections (st : GenState) :
    List (Expr × String) → Except SemErr (GenState × List (String × ℕ))
  | [] => .ok (st, [])
  | (e, aliasName) :: rest =>
      match visitExpr false st e with
      | .error err => .error err
      | .ok (st1, s) =>
          match visitProjections st1 rest with
          | .error err => .error err
          | .ok (st2, tail) => .ok (st2, (aliasName, s) :: tail)

/-- Visit a list of bare expressions (`RETURN` items). -/
def visitExprList (st : GenState) : List Expr → Except SemErr GenState
  | [] => .ok st
  | e :: rest =>
      match visitExpr false st e with
      | .error err => .error err
      | .ok (st1, _) => visitExprList st1 rest

/-- Modelled from the spec: the clause part of the `SymbolGenerator` visitor
(bodies outside the header surface).  `MATCH (v)` binds `v` to a fresh symbol
when unbound and reuses the existing one otherwise; `WITH` visits its
projections and then — `SetWithSymbols` — replaces the active scope with
exactly the alias bindings, discarding every binding not re-listed; `RETURN`
visits its items without altering the scope. -/
def visitClause (st : GenState) : Clause → Except SemErr GenState
  | .matchClause v =>
      match lookupSymbol st.symbols v with
      | some _ => .ok st
      | none => .ok { symbols := (v, st.nextSymbol) :: st.symbols
                      nextSymbol := st.nextSymbol + 1 }
  | .withClause projections =>
      match visitProjections st projections with
      | .error err => .error err
      | .ok (st1, newScope) => .ok { symbols := newScope, nextSymbol := st1.nextSymbol }
  | .returnClause items => visitExprList st items

/-- Run the symbol generator over a whole query (clause list), starting from
an empty scope, stopping at the first semantic error. -/
def runSymbolGenerator (clauses : List Clause) : Except SemErr GenState :=
  clauses.foldlM visitClause ⟨[], 0⟩

/-- `true` when the expression contains an aggregation. -/
def containsAgg : Expr → Bool
  | .ident _ => false
  | .agg _ => true

/-- `true` when an aggregation occurs inside another aggregation. -/
def hasNestedAgg : Expr → Bool
  | .ident _ => false
  | .agg e => containsAgg e || hasNestedAgg e

/-! ### Serialization of the external parser

§5 of the specification: every invocation of the external parser is performed
while holding the single process-wide `antlr_lock`; cache hits never touch the
lock.  A `ParseQuery` call is abstracted to its lock-relevant steps and the
interleaving of any number of such calls is a step relation on a shared
state. -/

/-- The lock-relevant program counter of one `ParseQuery` call: it either
starts destined for a cache hit (`startHit`, no parsing needed) or for a miss
(`startMiss`, the external parser must run), passes through `inParse` (holding
the antlr lock, inside the external parser) only on the miss path, and ends
`finished`. -/
inductive ThreadPC where
  | startHit
  | startMiss
  | inParse
  | finished
deriving DecidableEq, Repr

/-- Shared state of the interleaving: who holds the process-wide antlr lock
(`none` when free) and each thread's program counter. -/
structure LockState where
  antlrLock : Option ℕ
  pc : ℕ → ThreadPC

/-- Modelled from the spec: the lock discipline of `ParseQuery` (§4.1 step 4
and §5).  A hit completes without touching the lock; a miss acquires the free
lock and enters the parser; leaving the parser releases the lock. -/
inductive ParseStep : LockState → LockState → Prop where
  | cacheHit (s : LockState) (t : ℕ) (h : s.pc t = .startHit) :
      ParseStep s ⟨s.antlrLock, Function.update s.pc t .finished⟩
  | acquireAndParse (s : LockState) (t : ℕ) (h : s.pc t = .startMiss)
      (hfree : s.antlrLock = none) :
      ParseStep s ⟨some t, Function.update s.pc t .inParse⟩
  | releaseLock (s : LockState) (t : ℕ) (h : s.pc t = .inParse) :
      ParseStep s ⟨none, Function.update s.pc t .finished⟩

/-- The state in which every `ParseQuery` call is about to start (`hit t`
tells whether thread `t`'s call will hit the query cache) and the lock is
free. -/
def InitState (hit : ℕ → Bool) : LockState :=
  ⟨none, fun t => if hit t then .startHit else .startMiss⟩

/-- The inductive invariant of the interleaving: a parsing thread holds the
lock, the lock is only held by a parsing thread, and a thread whose call hits
the cache is never inside the parser. -/
def LockInv (hit : ℕ → Bool) (s : LockState) : Prop :=
  (∀ t, s.pc t = .inParse → s.antlrLock = some t) ∧
  (∀ t, s.antlrLock = some t → s.pc t = .inParse) ∧
  (∀ t, hit t = true → s.pc t = .startHit ∨ s.pc t = .finished)

/-! ### Theorems -/

/-- C2: `IsExpired()` is computed lazily at the moment it is read, as elapsed
time since construction strictly greater than the configured TTL in whole
seconds; a `CachedPlan` constructed at time `T` with TTL = 1 second reports
`IsExpired() = false` at `T + 0.5 s` and `= true` at `T + 1.5 s`.  (In this
embedding expiry is a pure read of the timer — there is no background actor
that could mark or remove an entry; the plan cache changes only through
`CypherQueryToPlan`.) -/
theorem cachedPlan_expiry_lazy_read (Op SymTab Storage : Type)
    (cp : CachedPlan Op SymTab Storage) (now : ℚ) (ttl : ℤ)
    (plan : LogicalPlan Op SymTab Storage) (T : ℚ) :
    cp.IsExpiredAt now ttl = decide ((ttl : ℚ) < now - cp.constructedAt) ∧
    (CachedPlan.mk plan T).IsExpiredAt (T + 1/2) 1 = false ∧
    (CachedPlan.mk plan T).IsExpiredAt (T + 3/2) 1 = true := by
  refine ⟨rfl, ?_, ?_⟩
  · simp only [CachedPlan.IsExpiredAt, show T + 1/2 - T = (1/2 : ℚ) from by ring,
      decide_eq_false_iff_not]
    norm_num
  · simp only [CachedPlan.IsExpiredAt, show T + 3/2 - T = (3/2 : ℚ) from by ring,
      decide_eq_true_eq]
    norm_num

/-- C10: the expiry comparison is strict: whenever the elapsed time since
construction is at most the configured TTL, `IsExpired()` is `false`; in
particular a freshly constructed `CachedPlan` (zero elapsed time) is not
expired even when `query_plan_cache_ttl` is `0`. -/
theorem cachedPlan_not_expired_within_ttl (Op SymTab Storage : Type)
    (cp : CachedPlan Op SymTab Storage) (now : ℚ) (ttl : ℤ)
    (h : now - cp.constructedAt ≤ (ttl : ℚ)) :
    cp.IsExpiredAt now ttl = false ∧
    ∀ (plan : LogicalPlan Op SymTab Storage) (T : ℚ),
      (CachedPlan.mk plan T).IsExpiredAt T 0 = false := by
  constructor
  · simp only [CachedPlan.IsExpiredAt, decide_eq_false_iff_not, not_lt]
    exact h
  · intro plan T
    simp only [CachedPlan.IsExpiredAt, decide_eq_false_iff_not, not_lt]
    norm_num

/-- Closed instance of `cachedPlan_not_expired_within_ttl`: a plan constructed
at instant 0, read at instant 3 with a TTL of 5 seconds, is not expired. -/
theorem cachedPlan_not_expired_within_ttl_witness :
    ((3 : ℚ) - ((⟨⟨0, 0, 0, 0⟩, 0⟩ : CachedPlan ℕ ℕ ℕ)).constructedAt ≤ ((5 : ℤ) : ℚ)) ∧
    (⟨⟨0, 0, 0, 0⟩, 0⟩ : CachedPlan ℕ ℕ ℕ).IsExpiredAt 3 5 = false :=
  ⟨by norm_num, (cachedPlan_not_expired_within_ttl ℕ ℕ ℕ ⟨⟨0, 0, 0, 0⟩, 0⟩ 3 5
      (by norm_num)).1⟩

/-- C7: equality and ordering of `QueryCacheEntry` and `PlanCacheEntry` are
determined solely by the 64-bit hash field `first`, independently of the
payload `second`; two entries carrying distinct payloads but the same hash
compare equal (the hash-collision caveat), and comparison against a raw hash
likewise reads only `first`. -/
theorem cacheEntry_compare_by_hash_only (Q P : Type)
    (a b : QueryCacheEntry Q) (c d : PlanCacheEntry P)
    (q1 q2 : Q) (p1 p2 : P) (h : ℕ) :
    (a.eqv b = true ↔ a.first = b.first) ∧
    (a.ltv b = true ↔ a.first < b.first) ∧
    (a.eqvHash h = true ↔ a.first = h) ∧
    (a.ltvHash h = true ↔ a.first < h) ∧
    (QueryCacheEntry.mk h q1).eqv (QueryCacheEntry.mk h q2) = true ∧
    (c.eqv d = true ↔ c.first = d.first) ∧
    (c.ltv d = true ↔ c.first < d.first) ∧
    (c.eqvHash h = true ↔ c.first = h) ∧
    (c.ltvHash h = true ↔ c.first < h) ∧
    (PlanCacheEntry.mk h p1).eqv (PlanCacheEntry.mk h p2) = true := by
  refine ⟨?_, ?_, ?_, ?_, ?_, ?_, ?_, ?_, ?_, ?_⟩ <;>
    simp [QueryCacheEntry.eqv, QueryCacheEntry.ltv, QueryCacheEntry.eqvHash,
      QueryCacheEntry.ltvHash, PlanCacheEntry.eqv, PlanCacheEntry.ltv,
      PlanCacheEntry.eqvHash, PlanCacheEntry.ltvHash]

/-- C8: the `CachedPlan` accessors return exactly the wrapped `LogicalPlan`'s
root, cost, symbol table and AST storage; `SingleNodeLogicalPlan`'s getters
return exactly the construction arguments; and the frame conditions hold:
expiry reads only the timer (same result for any wrapped plan) while the
accessors read only the plan (same result for any construction instant), and
the wrapped plan stored is the one supplied. -/
theorem cachedPlan_accessor_pass_through (Op SymTab Storage : Type)
    (root : Op) (cost : ℚ) (storage : Storage) (symbol_table : SymTab)
    (lp lp2 : LogicalPlan Op SymTab Storage) (T T2 now : ℚ) (ttl : ℤ) :
    (SingleNodeLogicalPlan.mk root cost storage symbol_table).GetRoot = root ∧
    (SingleNodeLogicalPlan.mk root cost storage symbol_table).GetCost = cost ∧
    (SingleNodeLogicalPlan.mk root cost storage symbol_table).GetSymbolTable = symbol_table ∧
    (SingleNodeLogicalPlan.mk root cost storage symbol_table).GetAstStorage = storage ∧
    (CachedPlan.mk lp T).plan = lp.GetRoot ∧
    (CachedPlan.mk lp T).cost = lp.GetCost ∧
    (CachedPlan.mk lp T).symbol_table = lp.GetSymbolTable ∧
    (CachedPlan.mk lp T).ast_storage = lp.GetAstStorage ∧
    (CachedPlan.mk lp T).IsExpiredAt now ttl = (CachedPlan.mk lp2 T).IsExpiredAt now ttl ∧
    (CachedPlan.mk lp T).plan = (CachedPlan.mk lp T2).plan ∧
    (CachedPlan.mk lp T).cost = (CachedPlan.mk lp T2).cost ∧
    (CachedPlan.mk lp T).symbol_table = (CachedPlan.mk lp T2).symbol_table ∧
    (CachedPlan.mk lp T).ast_storage = (CachedPlan.mk lp T2).ast_storage ∧
    (CachedPlan.mk lp T).plan_ = lp := by
  refine ⟨rfl, rfl, rfl, rfl, rfl, rfl, rfl, rfl, rfl, rfl, rfl, rfl, rfl, rfl⟩

/-- Looking up a hash right after inserting/replacing its entry finds the new
entry. -/
theorem planCacheFind_insertOrReplace_self {P : Type}
    (cache : List (PlanCacheEntry P)) (hash : ℕ) (p : P) :
    planCacheFind (planCacheInsertOrReplace cache hash p) hash = some ⟨hash, p⟩ := by
  unfold planCacheFind planCacheInsertOrReplace
  rw [List.find?_cons_of_pos]
  simp [PlanCacheEntry.eqvHash]

/-- C1: for a cacheable `CypherQueryToPlan` call, a plan-cache hit whose entry
is not expired returns the existing shared `CachedPlan` unchanged-cache and
without invoking the external planner; when the entry is missing or expired,
the planner is invoked, the fresh plan is wrapped in a new `CachedPlan` whose
timer starts at the call instant, and the plan-cache entry for the hash is
inserted or replaced (so the hash resolves to the new plan) before the new
plan is returned. -/
theorem cypherQueryToPlan_cache_protocol (Op SymTab Storage : Type) (hash : ℕ)
    (planner : Unit → LogicalPlan Op SymTab Storage)
    (plan_cache : List (PlanCacheEntry (CachedPlan Op SymTab Storage)))
    (now : ℚ) (ttl : ℤ) :
    (∀ e, planCacheFind plan_cache hash = some e →
      e.second.IsExpiredAt now ttl = false →
      CypherQueryToPlan hash planner plan_cache true now ttl = ⟨e.second, plan_cache, false⟩) ∧
    ((planCacheFind plan_cache hash = none ∨
      ∀ e, planCacheFind plan_cache hash = some e → e.second.IsExpiredAt now ttl = true) →
      (CypherQueryToPlan hash planner plan_cache true now ttl).plannerInvoked = true ∧
      (CypherQueryToPlan hash planner plan_cache true now ttl).plan = ⟨planner (), now⟩ ∧
      (CypherQueryToPlan hash planner plan_cache true now ttl).cache =
        planCacheInsertOrReplace plan_cache hash ⟨planner (), now⟩ ∧
      planCacheFind (CypherQueryToPlan hash planner plan_cache true now ttl).cache hash =
        some ⟨hash, ⟨planner (), now⟩⟩) := by
  constructor
  · intro e he hexp
    simp [CypherQueryToPlan, he, hexp]
  · intro hmiss
    cases hfind : planCacheFind plan_cache hash with
    | none =>
        simp [CypherQueryToPlan, hfind, planCacheFind_insertOrReplace_self]
    | some e =>
        have hexp : e.second.IsExpiredAt now ttl = true := by
          rcases hmiss with hnone | hall
          · rw [hfind] at hnone; cases hnone
          · exact hall e hfind
        simp [CypherQueryToPlan, hfind, hexp, planCacheFind_insertOrReplace_self]

/-- Closed instances of `cypherQueryToPlan_cache_protocol`: a non-expired hit
is returned as-is without planning, and a miss on the empty cache invokes the
planner. -/
theorem cypherQueryToPlan_cache_protocol_witness :
    CypherQueryToPlan 5 (fun _ => (⟨1, 2, 3, 4⟩ : LogicalPlan ℕ ℕ ℕ))
        [⟨5, ⟨⟨9, 8, 7, 6⟩, 0⟩⟩] true 0 10 =
      ⟨⟨⟨9, 8, 7, 6⟩, 0⟩, [⟨5, ⟨⟨9, 8, 7, 6⟩, 0⟩⟩], false⟩ ∧
    (CypherQueryToPlan 5 (fun _ => (⟨1, 2, 3, 4⟩ : LogicalPlan ℕ ℕ ℕ))
        [] true 0 10).plannerInvoked = true :=
  ⟨(cypherQueryToPlan_cache_protocol ℕ ℕ ℕ 5 (fun _ => ⟨1, 2, 3, 4⟩)
        [⟨5, ⟨⟨9, 8, 7, 6⟩, 0⟩⟩] 0 10).1 ⟨5, ⟨⟨9, 8, 7, 6⟩, 0⟩⟩
      rfl (by norm_num [CachedPlan.IsExpiredAt]),
   ((cypherQueryToPlan_cache_protocol ℕ ℕ ℕ 5 (fun _ => ⟨1, 2, 3, 4⟩)
        [] 0 10).2 (Or.inl rfl)).1⟩

/-- Looking up a hash right after inserting its query-cache entry finds the
new entry. -/
theorem queryCacheFind_insert_self (cache : List (QueryCacheEntry CachedQuery))
    (hash : ℕ) (cq : CachedQuery) :
    queryCacheFind (queryCacheInsert cache hash cq) hash = some ⟨hash, cq⟩ := by
  unfold queryCacheFind queryCacheInsert
  rw [List.find?_cons_of_pos]
  simp [QueryCacheEntry.eqvHash]

/-- A `ParseQuery` call whose stripped-query hash is in the cache returns the
cached AST storage, root node and privileges, leaves the cache untouched and
allocates no arena. -/
theorem parseQuery_hit_eq (fe : Frontend) (q : String) (params : List (String × ℕ))
    (cache : List (QueryCacheEntry CachedQuery)) (n : ℕ) (e : QueryCacheEntry CachedQuery)
    (hfind : queryCacheFind cache (fe.stripHash q) = some e) :
    ParseQuery fe q params cache n =
      ⟨.ok { query_string := q, user_parameters := params,
             stripped_hash := fe.stripHash q,
             ast_storage := e.second.ast_storage, query := e.second.query,
             required_privileges := e.second.required_privileges,
             is_cacheable := true },
       cache, n⟩ := by
  unfold ParseQuery
  simp only [hfind]

/-- After a successful `ParseQuery` call whose result is cacheable, the query
cache maps the stripped-query hash to exactly the returned AST storage, root
node and privilege list. -/
theorem parseQuery_cacheable_inserted (fe : Frontend) (q : String)
    (params : List (String × ℕ)) (cache : List (QueryCacheEntry CachedQuery)) (n : ℕ)
    (pq : ParsedQuery) (h1 : (ParseQuery fe q params cache n).result = .ok pq)
    (hc : pq.is_cacheable = true) :
    queryCacheFind (ParseQuery fe q params cache n).cache (fe.stripHash q) =
      some ⟨fe.stripHash q, ⟨pq.ast_storage, pq.query, pq.required_privileges⟩⟩ := by
  unfold ParseQuery at h1 ⊢
  cases hfind : queryCacheFind cache (fe.stripHash q) with
  | some e =>
      simp only [hfind, Except.ok.injEq] at h1
      subst h1
      have hpred := List.find?_some hfind
      have hfirst : e.first = fe.stripHash q := by
        simpa [QueryCacheEntry.eqvHash] using hpred
      simp only [hfind]
      rw [← hfirst]
  | none =>
      simp only [hfind] at h1 ⊢
      cases hparse : fe.parse q with
      | error e2 => simp [hparse] at h1
      | ok ast =>
          cases hsym : fe.symbolCheck ast with
          | error e2 => simp [hparse, hsym] at h1
          | ok u =>
              simp only [hparse, hsym, Except.ok.injEq] at h1 ⊢
              subst h1
              simp only [] at hc
              simp [hc, queryCacheFind_insert_self]

/-- C3 (amended): for every `ParseQuery` call that succeeds with a cacheable
result, a second `ParseQuery` call for the same query string on the resulting
cache is a cache hit: it returns the same shared AST storage and root query
node as the entry cached by the first call, an identical required-privilege
list, is marked cacheable, leaves the cache unchanged and allocates no new
AST arena. -/
theorem parseQuery_idempotent_when_cacheable (fe : Frontend) (q : String)
    (params params2 : List (String × ℕ)) (cache : List (QueryCacheEntry CachedQuery))
    (n : ℕ) (pq : ParsedQuery)
    (h1 : (ParseQuery fe q params cache n).result = .ok pq)
    (hc : pq.is_cacheable = true) :
    ParseQuery fe q params2 (ParseQuery fe q params cache n).cache
        (ParseQuery fe q params cache n).nextArenaId =
      ⟨.ok { query_string := q, user_parameters := params2,
             stripped_hash := fe.stripHash q, ast_storage := pq.ast_storage,
             query := pq.query, required_privileges := pq.required_privileges,
             is_cacheable := true },
       (ParseQuery fe q params cache n).cache,
       (ParseQuery fe q params cache n).nextArenaId⟩ := by
  have hins := parseQuery_cacheable_inserted fe q params cache n pq h1 hc
  exact parseQuery_hit_eq fe q params2 (ParseQuery fe q params cache n).cache
    (ParseQuery fe q params cache n).nextArenaId _ hins

/-- Closed instance of `parseQuery_idempotent_when_cacheable`: for a concrete
frontend judging its queries cacheable, the second call for `"m"` reuses the
arena cached by the first call. -/
theorem parseQuery_idempotent_when_cacheable_witness :
    ParseQuery ⟨fun _ => 3, fun _ => .ok 7, fun _ => .ok (), fun _ => [2], fun _ => true⟩
        "m" []
        (ParseQuery ⟨fun _ => 3, fun _ => .ok 7, fun _ => .ok (), fun _ => [2],
            fun _ => true⟩ "m" [] [] 0).cache
        (ParseQuery ⟨fun _ => 3, fun _ => .ok 7, fun _ => .ok (), fun _ => [2],
            fun _ => true⟩ "m" [] [] 0).nextArenaId =
      ⟨.ok ⟨"m", [], 3, ⟨0, 7⟩, 7, [2], true⟩,
       (ParseQuery ⟨fun _ => 3, fun _ => .ok 7, fun _ => .ok (), fun _ => [2],
           fun _ => true⟩ "m" [] [] 0).cache,
       (ParseQuery ⟨fun _ => 3, fun _ => .ok 7, fun _ => .ok (), fun _ => [2],
           fun _ => true⟩ "m" [] [] 0).nextArenaId⟩ :=
  parseQuery_idempotent_when_cacheable
    ⟨fun _ => 3, fun _ => .ok 7, fun _ => .ok (), fun _ => [2], fun _ => true⟩
    "m" [] [] [] 0 ⟨"m", [], 3, ⟨0, 7⟩, 7, [2], true⟩ rfl rfl

/-- C3 as stated is false: with a frontend that judges the parsed query
non-cacheable (§4.1 step 5 bypasses insertion), the second `ParseQuery` call
for the same query string re-parses into a fresh arena, so its AST storage is
not the shared object of the first call. -/
theorem parseQuery_repeat_not_shared_counterexample :
    (ParseQuery ⟨fun _ => 0, fun _ => .ok 7, fun _ => .ok (), fun _ => [1], fun _ => false⟩
        "q" []
        (ParseQuery ⟨fun _ => 0, fun _ => .ok 7, fun _ => .ok (), fun _ => [1],
            fun _ => false⟩ "q" [] [] 0).cache
        (ParseQuery ⟨fun _ => 0, fun _ => .ok 7, fun _ => .ok (), fun _ => [1],
            fun _ => false⟩ "q" [] [] 0).nextArenaId).result.toOption.map
      ParsedQuery.ast_storage ≠
    (ParseQuery ⟨fun _ => 0, fun _ => .ok 7, fun _ => .ok (), fun _ => [1],
        fun _ => false⟩ "q" [] [] 0).result.toOption.map ParsedQuery.ast_storage := by
  decide

/-- C6: a `ParseQuery` call that fails (a `SyntaxError` from the external
parser or a `SemanticError` from the symbol generator) leaves the query cache
exactly as it was and allocates no AST arena. -/
theorem parseQuery_error_leaves_cache_unchanged (fe : Frontend) (q : String)
    (params : List (String × ℕ)) (cache : List (QueryCacheEntry CachedQuery))
    (n : ℕ) (err : FrontendError)
    (h : (ParseQuery fe q params cache n).result = .error err) :
    (ParseQuery fe q params cache n).cache = cache ∧
    (ParseQuery fe q params cache n).nextArenaId = n := by
  unfold ParseQuery at h ⊢
  cases hfind : queryCacheFind cache (fe.stripHash q) with
  | some e => simp [hfind] at h
  | none =>
      simp only [hfind] at h ⊢
      cases hparse : fe.parse q with
      | error e2 => simp [hparse]
      | ok ast =>
          cases hsym : fe.symbolCheck ast with
          | error e2 => simp [hparse, hsym]
          | ok u => simp [hparse, hsym] at h

/-- Closed instance of `parseQuery_error_leaves_cache_unchanged`: a frontend
raising a `SyntaxError` at position 4 leaves the empty cache empty. -/
theorem parseQuery_error_leaves_cache_unchanged_witness :
    (ParseQuery ⟨fun _ => 0, fun _ => .error (.syntaxError 4), fun _ => .ok (),
        fun _ => [], fun _ => true⟩ "x" [] [] 0).result = .error (.syntaxError 4) ∧
    (ParseQuery ⟨fun _ => 0, fun _ => .error (.syntaxError 4), fun _ => .ok (),
        fun _ => [], fun _ => true⟩ "x" [] [] 0).cache = [] ∧
    (ParseQuery ⟨fun _ => 0, fun _ => .error (.syntaxError 4), fun _ => .ok (),
        fun _ => [], fun _ => true⟩ "x" [] [] 0).nextArenaId = 0 :=
  ⟨rfl, parseQuery_error_leaves_cache_unchanged
    ⟨fun _ => 0, fun _ => .error (.syntaxError 4), fun _ => .ok (), fun _ => [], fun _ => true⟩
    "x" [] [] 0 (.syntaxError 4) rfl⟩

/-- The scope a `WITH` clause builds lists exactly the projection aliases, in
order. -/
theorem visitProjections_aliases (projections : List (Expr × String)) :
    ∀ (st st1 : GenState) (newScope : List (String × ℕ)),
      visitProjections st projections = .ok (st1, newScope) →
      newScope.map Prod.fst = projections.map Prod.snd := by
  induction projections with
  | nil =>
      intro st st1 ns h
      simp only [visitProjections, Except.ok.injEq, Prod.mk.injEq] at h
      simp [← h.2]
  | cons p rest ih =>
      intro st st1 ns h
      obtain ⟨e, aliasName⟩ := p
      simp only [visitProjections] at h
      cases hv : visitExpr false st e with
      | error err => simp [hv] at h
      | ok pr =>
          obtain ⟨st2, s⟩ := pr
          simp only [hv] at h
          cases hrest : visitProjections st2 rest with
          | error err => simp [hrest] at h
          | ok pr2 =>
              obtain ⟨st3, tail⟩ := pr2
              simp only [hrest, Except.ok.injEq, Prod.mk.injEq] at h
              rw [← h.2]
              simp [ih st2 st3 tail hrest]

/-- C4: exiting a `WITH` clause replaces the active scope with exactly the
names re-exposed by the projection aliases (no prior binding survives unless
re-listed); concretely, for `MATCH (a) WITH a AS b RETURN b`, after the `WITH`
a reference to `a` fails with the unbound-variable `SemanticError` while `b`
resolves to the symbol originally bound to `a` (symbol 0). -/
theorem with_clause_resets_scope (st st1 : GenState)
    (projections : List (Expr × String)) (newScope : List (String × ℕ))
    (h : visitProjections st projections = .ok (st1, newScope)) :
    visitClause st (.withClause projections) = .ok ⟨newScope, st1.nextSymbol⟩ ∧
    newScope.map Prod.fst = projections.map Prod.snd ∧
    runSymbolGenerator [.matchClause "a", .withClause [(.ident "a", "b")],
        .returnClause [.ident "a"]] = .error (.unboundVariable "a") ∧
    runSymbolGenerator [.matchClause "a", .withClause [(.ident "a", "b")],
        .returnClause [.ident "b"]] = .ok ⟨[("b", 0)], 1⟩ ∧
    runSymbolGenerator [.matchClause "a"] = .ok ⟨[("a", 0)], 1⟩ := by
  refine ⟨?_, visitProjections_aliases projections st st1 newScope h, ?_, ?_, ?_⟩
  · simp [visitClause, h]
  · rfl
  · rfl
  · rfl

/-- Closed instance of `with_clause_resets_scope`: processing
`WITH a AS b` in the scope `{a ↦ 0}` yields the scope `{b ↦ 0}`. -/
theorem with_clause_resets_scope_witness :
    visitClause ⟨[("a", 0)], 1⟩ (.withClause [(.ident "a", "b")]) =
      .ok ⟨[("b", 0)], 1⟩ :=
  (with_clause_resets_scope ⟨[("a", 0)], 1⟩ ⟨[("a", 0)], 1⟩
    [(.ident "a", "b")] [("b", 0)] rfl).1

/-- C5: visiting an aggregation while `in_aggregation` is already set fails
with the nested-aggregation `SemanticError`; any expression with an
aggregation inside another aggregation is rejected by the expression visitor,
and the query `RETURN sum(count(x))` fails symbol generation (so it never
reaches planning). -/
theorem nested_aggregation_rejected (e : Expr) (st : GenState) (b : Bool)
    (h : hasNestedAgg e = true) :
    visitExpr b st e = .error .nestedAggregation ∧
    (∀ (e2 : Expr) (st2 : GenState),
      visitExpr true st2 (.agg e2) = .error .nestedAggregation) ∧
    runSymbolGenerator [.returnClause [.agg (.agg (.ident "x"))]] =
      .error .nestedAggregation := by
  refine ⟨?_, ?_, rfl⟩
  · cases e with
    | ident name => simp [hasNestedAgg] at h
    | agg e1 =>
        cases b with
        | true => simp [visitExpr]
        | false =>
            cases e1 with
            | ident name => simp [hasNestedAgg, containsAgg] at h
            | agg e2 => simp [visitExpr]
  · intro e2 st2
    simp [visitExpr]

/-- Closed instance of `nested_aggregation_rejected`: `sum(count(x))` is
rejected by the expression visitor. -/
theorem nested_aggregation_rejected_witness :
    visitExpr false ⟨[], 0⟩ (.agg (.agg (.ident "x"))) = .error .nestedAggregation :=
  (nested_aggregation_rejected (.agg (.agg (.ident "x"))) ⟨[], 0⟩ false rfl).1

/-- The lock invariant holds in every start state. -/
theorem lockInv_init (hit : ℕ → Bool) : LockInv hit (InitState hit) := by
  refine ⟨?_, ?_, ?_⟩
  · intro t h
    by_cases hh : hit t = true <;> simp [InitState, hh] at h
  · intro t h
    simp [InitState] at h
  · intro t h
    left
    simp [InitState, h]

/-- The lock invariant is preserved by every step of the interleaving. -/
theorem lockInv_step (hit : ℕ → Bool) (s s2 : LockState) (hstep : ParseStep s s2)
    (hinv : LockInv hit s) : LockInv hit s2 := by
  obtain ⟨inv1, inv2, inv3⟩ := hinv
  cases hstep with
  | cacheHit t h =>
      refine ⟨?_, ?_, ?_⟩
      · intro u hu
        by_cases hut : u = t
        · subst hut
          simp only [Function.update_same] at hu
          exact ThreadPC.noConfusion hu
        · simp only [Function.update_noteq hut] at hu
          exact inv1 u hu
      · intro u hu
        have hpc := inv2 u hu
        by_cases hut : u = t
        · subst hut
          rw [h] at hpc
          exact ThreadPC.noConfusion hpc
        · simp only [Function.update_noteq hut]
          exact hpc
      · intro u hu
        by_cases hut : u = t
        · subst hut
          right
          exact Function.update_same u _ _
        · simp only [Function.update_noteq hut]
          exact inv3 u hu
  | acquireAndParse t h hfree =>
      refine ⟨?_, ?_, ?_⟩
      · intro u hu
        by_cases hut : u = t
        · subst hut; rfl
        · simp only [Function.update_noteq hut] at hu
          have := inv1 u hu
          rw [hfree] at this
          exact Option.noConfusion this
      · intro u hu
        have hut : u = t := by
          have := Option.some.inj hu
          omega
        subst hut
        exact Function.update_same u _ _
      · intro u hu
        by_cases hut : u = t
        · subst hut
          rcases inv3 u hu with h1 | h1 <;> rw [h1] at h <;> exact ThreadPC.noConfusion h
        · simp only [Function.update_noteq hut]
          exact inv3 u hu
  | releaseLock t h =>
      refine ⟨?_, ?_, ?_⟩
      · intro u hu
        by_cases hut : u = t
        · subst hut
          simp only [Function.update_same] at hu
          exact ThreadPC.noConfusion hu
        · simp only [Function.update_noteq hut] at hu
          have h1 := inv1 u hu
          have h2 := inv1 t h
          rw [h1] at h2
          exact absurd (Option.some.inj h2) hut
      · intro u hu
        exact Option.noConfusion hu
      · intro u hu
        by_cases hut : u = t
        · subst hut
          right
          exact Function.update_same u _ _
        · simp only [Function.update_noteq hut]
          exact inv3 u hu

/-- The lock invariant holds in every state reachable from a start state. -/
theorem lockInv_reachable (hit : ℕ → Bool) (s : LockState)
    (h : Relation.ReflTransGen ParseStep (InitState hit) s) : LockInv hit s := by
  induction h with
  | refl => exact lockInv_init hit
  | tail hab hbc ih => exact lockInv_step hit _ _ hbc ih

/-- C9: in every reachable interleaving of concurrent `ParseQuery` calls,
a thread inside the external parser holds the process-wide antlr lock, no two
threads are ever inside the parser at once, and a call that hits the query
cache never holds (so never acquires) that lock. -/
theorem parser_never_concurrent (hit : ℕ → Bool) (s : LockState)
    (h : Relation.ReflTransGen ParseStep (InitState hit) s) :
    (∀ t, s.pc t = .inParse → s.antlrLock = some t) ∧
    (∀ t u, s.pc t = .inParse → s.pc u = .inParse → t = u) ∧
    (∀ t, hit t = true → s.antlrLock ≠ some t) := by
  obtain ⟨inv1, inv2, inv3⟩ := lockInv_reachable hit s h
  refine ⟨inv1, ?_, ?_⟩
  · intro t u ht hu
    have h1 := inv1 t ht
    have h2 := inv1 u hu
    rw [h1] at h2
    exact Option.some.inj h2
  · intro t hhit hlock
    have hpc := inv2 t hlock
    rcases inv3 t hhit with h1 | h1 <;> rw [h1] at hpc <;> exact ThreadPC.noConfusion hpc

/-- Closed instance of `parser_never_concurrent`: after thread 0 (a cache
miss) acquires the free lock from a start state of all-miss threads, it is
inside the parser and holds the lock. -/
theorem parser_never_concurrent_witness :
    (⟨some 0, Function.update (InitState (fun _ => false)).pc 0 .inParse⟩ :
        LockState).antlrLock = some 0 :=
  (parser_never_concurrent (fun _ => false)
      ⟨some 0, Function.update (InitState (fun _ => false)).pc 0 .inParse⟩
      (Relation.ReflTransGen.single
        (ParseStep.acquireAndParse (InitState (fun _ => false)) 0 rfl rfl))).1 0
    (by simp)

end Memgraph
